import Mathlib

/-!
Verification of the football-coach-intelligence tracking and event-detection
core (`src/backend/utils/zones.py` and `src/backend/utils/tracker.py`).

Python floats are embedded as rationals (`ℚ`); Python ints as `ℤ`/`ℕ`.
Functions that raise exceptions are embedded as `Option`-valued functions.
Square roots of distances never appear on their own in the verified claims:
the code only compares Euclidean distances with each other and with a
nonnegative threshold, and `Real.sqrt` is strictly monotone on nonnegative
inputs, so those comparisons are embedded at the level of squared distances.
-/

namespace FootballCoach

/-! ## zones.py — `PitchZoneMapper` -/

/-- The `PitchZoneMapper` object: its constructor only stores the pitch
dimensions; `zones_per_row = 6` and `zones_per_col = 3` are fixed. -/
structure PitchZoneMapper where
  pitch_width : ℚ
  pitch_height : ℚ

/-- `self.zones_per_row` (always 6). -/
def zones_per_row : ℤ := 6

/-- `self.zones_per_col` (always 3). -/
def zones_per_col : ℤ := 3

/-- `self.zone_width = pitch_width / self.zones_per_row`. -/
def PitchZoneMapper.zone_width (m : PitchZoneMapper) : ℚ :=
  m.pitch_width / 6

/-- `self.zone_height = pitch_height / self.zones_per_col`. -/
def PitchZoneMapper.zone_height (m : PitchZoneMapper) : ℚ :=
  m.pitch_height / 3

/-- A zone's `(x1, y1, x2, y2)` rectangle, as stored in `self.zone_map`. -/
structure ZoneBounds where
  x1 : ℚ
  y1 : ℚ
  x2 : ℚ
  y2 : ℚ
deriving DecidableEq

/-- `PitchZoneMapper._create_zone_map`, read back as a lookup: the dict maps
`zone_number = row * 6 + col + 1` (row `0..2`, col `0..5`) to the rectangle
`(col*zw, row*zh, (col+1)*zw, (row+1)*zh)`; keys outside `1..18` are absent. -/
def PitchZoneMapper.zone_map (m : PitchZoneMapper) (z : ℤ) : Option ZoneBounds :=
  if 1 ≤ z ∧ z ≤ 18 then
    let col : ℤ := (z - 1) % 6
    let row : ℤ := (z - 1) / 6
    some ⟨col * m.zone_width, row * m.zone_height,
          (col + 1) * m.zone_width, (row + 1) * m.zone_height⟩
  else none

/-- `PitchZoneMapper.pixel_to_zone`: 0 outside the pitch, else
`row * 6 + col + 1` with the column and row indices clamped into range. -/
def PitchZoneMapper.pixel_to_zone (m : PitchZoneMapper) (x y : ℚ) : ℤ :=
  if 0 ≤ x ∧ x ≤ m.pitch_width ∧ 0 ≤ y ∧ y ≤ m.pitch_height then
    let col : ℤ := min ⌊x / m.zone_width⌋ (zones_per_row - 1)
    let row : ℤ := min ⌊y / m.zone_height⌋ (zones_per_col - 1)
    row * zones_per_row + col + 1
  else 0

/-- `PitchZoneMapper.zone_to_pixel_center`: `none` models the `ValueError`
raised for a zone number absent from `zone_map`. -/
def PitchZoneMapper.zone_to_pixel_center (m : PitchZoneMapper) (z : ℤ) :
    Option (ℚ × ℚ) :=
  (m.zone_map z).map fun b => ((b.x1 + b.x2) / 2, (b.y1 + b.y2) / 2)

/-- `PitchZoneMapper.get_zone_boundaries`: `none` models the `ValueError`. -/
def PitchZoneMapper.get_zone_boundaries (m : PitchZoneMapper) (z : ℤ) :
    Option ZoneBounds :=
  m.zone_map z

/-- `PitchZoneMapper.calculate_zone_sum`. -/
def calculate_zone_sum (zones : List ℤ) : ℤ :=
  zones.sum

/-- `PitchZoneMapper.detect_fast_break` with all five arguments explicit
(the Python defaults are `min_passes=3, min_zone_sum=9, max_passes=5,
max_zone_sum=12`). -/
def detect_fast_break (zone_sequence : List ℤ) (min_passes : ℕ)
    (min_zone_sum : ℤ) (max_passes : ℕ) (max_zone_sum : ℤ) : Bool :=
  if zone_sequence.length < min_passes then
    false
  else
    let zone_sum := calculate_zone_sum zone_sequence
    if min_passes ≤ zone_sequence.length ∧ min_zone_sum < zone_sum then
      true
    else if min_passes < zone_sequence.length ∧
        zone_sequence.length ≤ max_passes ∧ max_zone_sum < zone_sum then
      true
    else
      false

/-- `detect_fast_break` at the Python default thresholds. -/
def detect_fast_break_default (zone_sequence : List ℤ) : Bool :=
  detect_fast_break zone_sequence 3 9 5 12

/-- The default mapper, `PitchZoneMapper()` with a 1920×1080 pitch. -/
def defaultMapper : PitchZoneMapper :=
  ⟨1920, 1080⟩

/-! ## tracker.py — `ObjectTracker` and `BallTracker`

The opaque OpenCV frame and per-track visual-tracker handles are modelled
by oracles: `tracker.init(frame, bbox)` becomes a `Bool` attached to each
detection, and `tracker.update(frame)` becomes a function from track id to
`Option BBox` (`some b` for `(True, b)`, `none` for a failed update). -/

/-- A bounding box `(x, y, w, h)` in pixels. -/
structure BBox where
  x : ℚ
  y : ℚ
  w : ℚ
  h : ℚ
deriving DecidableEq

/-- The `TrackedObject` dataclass. -/
structure TrackedObject where
  id : ℕ
  bbox : BBox
  class_id : ℕ
  confidence : ℚ
  frame_id : ℕ
  center : ℚ × ℚ
  velocity : Option (ℚ × ℚ)
deriving DecidableEq

/-- A detection dictionary: `{bbox, class_id, confidence}`. -/
structure Detection where
  bbox : BBox
  class_id : ℕ
  confidence : ℚ
deriving DecidableEq

/-- One entry of `self.trackers` (keyed by its `id`, storing `class_id` and
`confidence`) merged with its `self.disappeared` counter; the two dicts
always hold the same keys. -/
structure TrackEntry where
  id : ℕ
  class_id : ℕ
  confidence : ℚ
  disappeared : ℕ
deriving DecidableEq

/-- `ObjectTracker` mutable state: the insertion-ordered `self.trackers`
dict and `self.next_id`. -/
structure TrackerState where
  tracks : List TrackEntry
  next_id : ℕ
deriving DecidableEq

/-- `ObjectTracker.__init__`: empty dicts, `next_id = 0`. -/
def TrackerState.init : TrackerState := ⟨[], 0⟩

/-- `self.max_disappeared` (30, "frames before considering object lost"). -/
def max_disappeared : ℕ := 30

/-- The bootstrap loop of `ObjectTracker.update`: each detection, in order,
either spawns a track with id `next_id` and counter 0 (when its
`tracker.init` succeeds, incrementing `next_id`) or is skipped. The `Bool`
paired with each detection is the init-success oracle. -/
def bootstrapTracks (s : TrackerState) : List (Detection × Bool) → TrackerState
  | [] => s
  | (d, ok) :: rest =>
    if ok then
      bootstrapTracks
        ⟨s.tracks ++ [⟨s.next_id, d.class_id, d.confidence, 0⟩], s.next_id + 1⟩ rest
    else
      bootstrapTracks s rest

/-- The per-track update loop of `ObjectTracker.update`. On backend success
(`upd id = some b`) the counter resets to 0 and a `TrackedObject` snapshot
is emitted (`frame_id` 0, centre `(x + w/2, y + h/2)`, no velocity); on
failure the counter increments and the entry is deleted once the counter
exceeds `max_disappeared`. Returns the surviving entries and the emitted
snapshots, in order. -/
def updateTracks (upd : ℕ → Option BBox) :
    List TrackEntry → List TrackEntry × List TrackedObject
  | [] => ([], [])
  | t :: rest =>
    let tail := updateTracks upd rest
    match upd t.id with
    | some b =>
      (⟨t.id, t.class_id, t.confidence, 0⟩ :: tail.1,
       ⟨t.id, b, t.class_id, t.confidence, 0,
        (b.x + b.w / 2, b.y + b.h / 2), none⟩ :: tail.2)
    | none =>
      if max_disappeared < t.disappeared + 1 then tail
      else (⟨t.id, t.class_id, t.confidence, t.disappeared + 1⟩ :: tail.1, tail.2)

/-- `ObjectTracker.update`: bootstrap when `self.trackers` is empty, then
run the per-track loop (which also visits tracks created by the bootstrap in
the same call, the dict snapshot being taken after the bootstrap). -/
def TrackerState.update (s : TrackerState) (dets : List (Detection × Bool))
    (upd : ℕ → Option BBox) : TrackerState × List TrackedObject :=
  let s1 := if s.tracks.isEmpty then bootstrapTracks s dets else s
  let res := updateTracks upd s1.tracks
  (⟨res.1, s1.next_id⟩, res.2)

/-- `ObjectTracker.reset`: clears both dicts and the id counter. -/
def TrackerState.reset (_ : TrackerState) : TrackerState := ⟨[], 0⟩

/-- `ObjectTracker._calculate_distance`, squared. The code returns
`sqrt((x₁-x₂)² + (y₁-y₂)²)` and only ever compares distances with each
other or with a nonnegative threshold; since `sqrt` is strictly monotone on
nonnegatives, all those comparisons are carried out here on the squares. -/
def calculate_distance_sq (p q : ℚ × ℚ) : ℚ :=
  (p.1 - q.1) ^ 2 + (p.2 - q.2) ^ 2

/-- One iteration of the closest-player loop of `detect_ball_transfer`: a
player strictly closer than the running minimum replaces it (so ties keep
the earlier player); `none` stands for `closest_player = None,
min_distance = inf`, which any first player beats. -/
def closestStep (ballCenter : ℚ × ℚ) (acc : Option (TrackedObject × ℚ))
    (p : TrackedObject) : Option (TrackedObject × ℚ) :=
  let d := calculate_distance_sq ballCenter p.center
  match acc with
  | none => some (p, d)
  | some (q, dmin) => if d < dmin then some (p, d) else some (q, dmin)

/-- The whole closest-player loop. -/
def closestPlayer (ballCenter : ℚ × ℚ) (players : List TrackedObject) :
    Option (TrackedObject × ℚ) :=
  players.foldl (closestStep ballCenter) none

/-- A transfer event dictionary as built by `detect_ball_transfer`
(`distance_sq` stores the square of the recorded distance). -/
structure TransferEvent where
  frame_id : ℕ
  ball_id : ℕ
  player_id : ℕ
  distance_sq : ℚ
  ball_position : ℚ × ℚ
  player_position : ℚ × ℚ
deriving DecidableEq

/-- `ObjectTracker.detect_ball_transfer` (class 0 = player, class 1 = ball;
the first ball is used; the default `transfer_threshold` is 50). The
comparison `min_distance ≤ transfer_threshold` is taken on squares. -/
def detect_ball_transfer (tracked : List TrackedObject)
    (transfer_threshold : ℚ) : List TransferEvent :=
  let players := tracked.filter fun o => o.class_id == 0
  let balls := tracked.filter fun o => o.class_id == 1
  match balls with
  | [] => []
  | ball :: _ =>
    if players.length < 2 then []
    else
      match closestPlayer ball.center players with
      | none => []
      | some (p, dmin) =>
        if dmin ≤ transfer_threshold ^ 2 then
          [⟨ball.frame_id, ball.id, p.id, dmin, ball.center, p.center⟩]
        else []

/-- The `prev_objects_map` dict comprehension of `calculate_velocity`:
id → the **last** previous object with that id (later entries of a dict
comprehension overwrite earlier ones). -/
def prevObjectsMap (previous : List TrackedObject) (i : ℕ) :
    Option TrackedObject :=
  previous.reverse.find? fun p => p.id == i

/-- `ObjectTracker.calculate_velocity`: each current object whose id is a
key of `prev_objects_map` gets `velocity = current centre − previous
centre`; every other object is returned untouched. -/
def calculate_velocity (tracked previous : List TrackedObject) :
    List TrackedObject :=
  tracked.map fun obj =>
    match prevObjectsMap previous obj.id with
    | some prev =>
      { obj with
        velocity := some (obj.center.1 - prev.center.1,
                          obj.center.2 - prev.center.2) }
    | none => obj

/-- One entry of `BallTracker.ball_history`. -/
structure BallHistoryEntry where
  frame_id : ℕ
  position : ℚ × ℚ
  bbox : BBox
deriving DecidableEq

/-- The velocity list built by `predict_ball_position`: differences of
consecutive positions. -/
def consecVelocities : List (ℚ × ℚ) → List (ℚ × ℚ)
  | p :: q :: rest => (q.1 - p.1, q.2 - p.2) :: consecVelocities (q :: rest)
  | _ => []

/-- `BallTracker.predict_ball_position` over the current `ball_history`
(oldest first): `none` with fewer than 3 samples, otherwise the last
position plus `frames_ahead` times the component-wise average of the
velocities between the three most recent samples (`ball_history[-3:]`).
The `getLast?` `none` branch is unreachable under the length guard. -/
def predict_ball_position (ball_history : List BallHistoryEntry)
    (frames_ahead : ℕ) : Option (ℚ × ℚ) :=
  if ball_history.length < 3 then none
  else
    let recent := ball_history.drop (ball_history.length - 3)
    let velocities := consecVelocities (recent.map BallHistoryEntry.position)
    if velocities.isEmpty then none
    else
      let avg_vx := (velocities.map Prod.fst).sum / velocities.length
      let avg_vy := (velocities.map Prod.snd).sum / velocities.length
      match ball_history.getLast? with
      | none => none
      | some lastEntry =>
        some (lastEntry.position.1 + avg_vx * frames_ahead,
              lastEntry.position.2 + avg_vy * frames_ahead)

/-- A fixed detection for concrete tracker runs. -/
def sampleDetection : Detection := ⟨⟨0, 0, 10, 10⟩, 0, 1⟩

/-- A concrete run: one call that bootstraps `sampleDetection` into a
track, followed by `n` calls with no detections in which the backend fails
every update. -/
def runMisses : ℕ → TrackerState
  | 0 => (TrackerState.init.update [(sampleDetection, true)] fun _ => none).1
  | n + 1 => ((runMisses n).update [] fun _ => none).1

end FootballCoach

namespace FootballCoach

/-! ## Claims C1–C3: fast-break classification and concrete zone lookups -/

/-- C1 (counterexample): the claim says the zone sequence `[1,2,3,6]`
(4 passes, zone sum 12) is **not** classified as a fast-break under the
default thresholds, but `detect_fast_break` returns `true` for it: Rule 1
(`len ≥ 3` and `zone_sum > 9`) already fires, since `12 > 9`. -/
theorem detect_fast_break_1236_counterexample :
    detect_fast_break_default [1, 2, 3, 6] = true := by
  decide

/-- C1 (amended): under the default thresholds both `[1,2,3,6]` (zone sum 12,
a fast-break via Rule 1 since `12 > 9`) and `[1,2,3,7]` (zone sum 13) are
classified as fast-breaks. -/
theorem detect_fast_break_1236_1237 :
    detect_fast_break_default [1, 2, 3, 6] = true ∧
    detect_fast_break_default [1, 2, 3, 7] = true := by
  decide

/-- C2 (counterexample): the claim says `pixel_to_zone(100, 700)` returns
zone 13 on the default 1920×1080 pitch, but it returns zone 7: the row index
is `⌊700 / 360⌋ = 1`, giving `1·6 + 0 + 1 = 7`. -/
theorem pixel_to_zone_100_700_counterexample :
    ¬ defaultMapper.pixel_to_zone 100 700 = 13 := by
  norm_num [PitchZoneMapper.pixel_to_zone, PitchZoneMapper.zone_width,
    PitchZoneMapper.zone_height, defaultMapper, zones_per_row, zones_per_col]

/-- C2 (amended): with the default 1920×1080 pitch (zone width 320, zone
height 360), `pixel_to_zone(100,100) = 1`, `pixel_to_zone(1900,100) = 6`,
and `pixel_to_zone(100,700) = 7`. -/
theorem pixel_to_zone_default_values :
    defaultMapper.pixel_to_zone 100 100 = 1 ∧
    defaultMapper.pixel_to_zone 1900 100 = 6 ∧
    defaultMapper.pixel_to_zone 100 700 = 7 := by
  refine ⟨?_, ?_, ?_⟩ <;>
    norm_num [PitchZoneMapper.pixel_to_zone, PitchZoneMapper.zone_width,
      PitchZoneMapper.zone_height, defaultMapper, zones_per_row, zones_per_col]

/-! ## Zone geometry: helper lemmas for claims C6 and C10 -/

/-- Generic bound for a clamped floor index: for `0 ≤ x ≤ n·w` with `w > 0`,
the index `min ⌊x/w⌋ (n-1)` lies in `[0, n-1]` and its cell `[i·w, (i+1)·w]`
contains `x` (the clamp only matters at the right edge `x = n·w`). -/
theorem clamp_floor_bounds (x w : ℚ) (n : ℤ) (hw : 0 < w) (hn : 0 < n)
    (hx0 : 0 ≤ x) (hxn : x ≤ (n : ℚ) * w) :
    0 ≤ min ⌊x / w⌋ (n - 1) ∧ min ⌊x / w⌋ (n - 1) ≤ n - 1 ∧
    ((min ⌊x / w⌋ (n - 1) : ℤ) : ℚ) * w ≤ x ∧
    x ≤ (((min ⌊x / w⌋ (n - 1) : ℤ) : ℚ) + 1) * w := by
  have hdiv0 : 0 ≤ x / w := div_nonneg hx0 hw.le
  have hf0 : 0 ≤ ⌊x / w⌋ := Int.floor_nonneg.mpr hdiv0
  have hdivn : x / w ≤ (n : ℚ) := (div_le_iff₀ hw).mpr hxn
  have hfn : ⌊x / w⌋ ≤ n := by
    have := Int.floor_le_floor hdivn
    simpa using this
  set c : ℤ := min ⌊x / w⌋ (n - 1) with hc
  refine ⟨by omega, min_le_right _ _, ?_, ?_⟩
  · have hcle : (c : ℚ) ≤ x / w := by
      have h1 : (c : ℚ) ≤ (⌊x / w⌋ : ℚ) := by
        exact_mod_cast min_le_left _ _
      exact h1.trans (Int.floor_le _)
    calc (c : ℚ) * w ≤ (x / w) * w := by
          exact mul_le_mul_of_nonneg_right hcle hw.le
      _ = x := div_mul_cancel₀ x hw.ne'
  · rcases le_or_lt ⌊x / w⌋ (n - 1) with hle | hlt
    · have hceq : c = ⌊x / w⌋ := min_eq_left hle
      have h1 : x / w < (⌊x / w⌋ : ℚ) + 1 := Int.lt_floor_add_one _
      have h2 : x < ((⌊x / w⌋ : ℚ) + 1) * w := by
        have := (div_lt_iff₀ hw).mp h1
        linarith
      rw [hceq]
      exact h2.le
    · have hceq : c = n - 1 := min_eq_right (by omega)
      rw [hceq]
      push_cast
      have : ((n : ℚ) - 1 + 1) = (n : ℚ) := by ring
      rw [this]
      exact hxn

/-- On-pitch part of C6: inside the pitch rectangle, `pixel_to_zone` yields a
zone in `[1,18]` whose boundaries, via `get_zone_boundaries`, contain the
point. -/
theorem pixel_to_zone_in_bounds (m : PitchZoneMapper) (hw : 0 < m.pitch_width)
    (hh : 0 < m.pitch_height) (x y : ℚ)
    (hx0 : 0 ≤ x) (hxw : x ≤ m.pitch_width)
    (hy0 : 0 ≤ y) (hyh : y ≤ m.pitch_height) :
    1 ≤ m.pixel_to_zone x y ∧ m.pixel_to_zone x y ≤ 18 ∧
    ∃ b, m.get_zone_boundaries (m.pixel_to_zone x y) = some b ∧
      b.x1 ≤ x ∧ x ≤ b.x2 ∧ b.y1 ≤ y ∧ y ≤ b.y2 := by
  have hzw : 0 < m.zone_width := by
    unfold PitchZoneMapper.zone_width; positivity
  have hzh : 0 < m.zone_height := by
    unfold PitchZoneMapper.zone_height; positivity
  have hxw6 : x ≤ (6 : ℚ) * m.zone_width := by
    have h6 : (6 : ℚ) * m.zone_width = m.pitch_width := by
      unfold PitchZoneMapper.zone_width; ring
    rw [h6]; exact hxw
  have hyh3 : y ≤ (3 : ℚ) * m.zone_height := by
    have h3 : (3 : ℚ) * m.zone_height = m.pitch_height := by
      unfold PitchZoneMapper.zone_height; ring
    rw [h3]; exact hyh
  obtain ⟨hc0, hc5, hcl, hcu⟩ :=
    clamp_floor_bounds x m.zone_width 6 hzw (by norm_num) hx0 (by exact_mod_cast hxw6)
  obtain ⟨hr0, hr2, hrl, hru⟩ :=
    clamp_floor_bounds y m.zone_height 3 hzh (by norm_num) hy0 (by exact_mod_cast hyh3)
  set c : ℤ := min ⌊x / m.zone_width⌋ (6 - 1) with hcdef
  set r : ℤ := min ⌊y / m.zone_height⌋ (3 - 1) with hrdef
  have hzone : m.pixel_to_zone x y = r * 6 + c + 1 := by
    unfold PitchZoneMapper.pixel_to_zone
    rw [if_pos ⟨hx0, hxw, hy0, hyh⟩]
    simp only [zones_per_row, zones_per_col]
  rw [hzone]
  refine ⟨by omega, by omega, ?_⟩
  have hmem : 1 ≤ r * 6 + c + 1 ∧ r * 6 + c + 1 ≤ 18 := by omega
  refine ⟨⟨(c : ℚ) * m.zone_width, (r : ℚ) * m.zone_height,
           ((c : ℚ) + 1) * m.zone_width, ((r : ℚ) + 1) * m.zone_height⟩,
          ?_, hcl, hcu, hrl, hru⟩
  unfold PitchZoneMapper.get_zone_boundaries PitchZoneMapper.zone_map
  rw [if_pos hmem]
  have hcol : (r * 6 + c + 1 - 1) % 6 = c := by omega
  have hrow : (r * 6 + c + 1 - 1) / 6 = r := by omega
  simp only [hcol, hrow]

/-- C6: on a pitch with positive width and height, every point inside the
pitch rectangle is mapped by `pixel_to_zone` to a zone in `[1,18]` whose
boundaries (via `get_zone_boundaries`) contain the point — edge pixels are
clamped into the last column/row — and every point outside the rectangle is
mapped to 0. -/
theorem pixel_to_zone_total_spec (m : PitchZoneMapper) (hw : 0 < m.pitch_width)
    (hh : 0 < m.pitch_height) (x y : ℚ) :
    (0 ≤ x ∧ x ≤ m.pitch_width ∧ 0 ≤ y ∧ y ≤ m.pitch_height →
      1 ≤ m.pixel_to_zone x y ∧ m.pixel_to_zone x y ≤ 18 ∧
      ∃ b, m.get_zone_boundaries (m.pixel_to_zone x y) = some b ∧
        b.x1 ≤ x ∧ x ≤ b.x2 ∧ b.y1 ≤ y ∧ y ≤ b.y2) ∧
    (¬(0 ≤ x ∧ x ≤ m.pitch_width ∧ 0 ≤ y ∧ y ≤ m.pitch_height) →
      m.pixel_to_zone x y = 0) := by
  constructor
  · rintro ⟨hx0, hxw, hy0, hyh⟩
    exact pixel_to_zone_in_bounds m hw hh x y hx0 hxw hy0 hyh
  · intro h
    unfold PitchZoneMapper.pixel_to_zone
    rw [if_neg h]

/-- Witness for C6 at the default 1920×1080 pitch and the on-pitch point
(100, 100). -/
theorem pixel_to_zone_total_spec_witness :
    1 ≤ defaultMapper.pixel_to_zone 100 100 ∧
    defaultMapper.pixel_to_zone 100 100 ≤ 18 := by
  have h := (pixel_to_zone_total_spec defaultMapper
      (by norm_num [defaultMapper]) (by norm_num [defaultMapper]) 100 100).1
      (by norm_num [defaultMapper])
  exact ⟨h.1, h.2.1⟩

/-- C10: on any pitch with positive width and height, the center returned by
`zone_to_pixel_center` for a zone `z ∈ [1,18]` is mapped back to `z` by
`pixel_to_zone`. -/
theorem zone_center_roundtrip (m : PitchZoneMapper) (hw : 0 < m.pitch_width)
    (hh : 0 < m.pitch_height) (z : ℤ) (hz1 : 1 ≤ z) (hz18 : z ≤ 18) :
    ∃ p, m.zone_to_pixel_center z = some p ∧ m.pixel_to_zone p.1 p.2 = z := by
  have hzw : 0 < m.zone_width := by unfold PitchZoneMapper.zone_width; positivity
  have hzh : 0 < m.zone_height := by unfold PitchZoneMapper.zone_height; positivity
  set c : ℤ := (z - 1) % 6 with hcdef
  set r : ℤ := (z - 1) / 6 with hrdef
  have hc0 : 0 ≤ c := by omega
  have hc5 : c ≤ 5 := by omega
  have hr0 : 0 ≤ r := by omega
  have hr2 : r ≤ 2 := by omega
  have hcenter : m.zone_to_pixel_center z =
      some ((((c : ℚ) + 1 / 2) * m.zone_width),
            (((r : ℚ) + 1 / 2) * m.zone_height)) := by
    unfold PitchZoneMapper.zone_to_pixel_center PitchZoneMapper.zone_map
    rw [if_pos ⟨hz1, hz18⟩]
    simp only [Option.map_some']
    congr 1
    apply Prod.ext <;> dsimp <;> ring
  refine ⟨_, hcenter, ?_⟩
  dsimp only
  have hcq0 : (0 : ℚ) ≤ (c : ℚ) := by exact_mod_cast hc0
  have hcq5 : (c : ℚ) ≤ 5 := by exact_mod_cast hc5
  have hrq0 : (0 : ℚ) ≤ (r : ℚ) := by exact_mod_cast hr0
  have hrq2 : (r : ℚ) ≤ 2 := by exact_mod_cast hr2
  have h6w : (6 : ℚ) * m.zone_width = m.pitch_width := by
    unfold PitchZoneMapper.zone_width; ring
  have h3h : (3 : ℚ) * m.zone_height = m.pitch_height := by
    unfold PitchZoneMapper.zone_height; ring
  have hx0 : 0 ≤ ((c : ℚ) + 1 / 2) * m.zone_width := by positivity
  have hxw : ((c : ℚ) + 1 / 2) * m.zone_width ≤ m.pitch_width := by
    rw [← h6w]
    apply mul_le_mul_of_nonneg_right _ hzw.le
    linarith
  have hy0 : 0 ≤ ((r : ℚ) + 1 / 2) * m.zone_height := by positivity
  have hyh : ((r : ℚ) + 1 / 2) * m.zone_height ≤ m.pitch_height := by
    rw [← h3h]
    apply mul_le_mul_of_nonneg_right _ hzh.le
    linarith
  unfold PitchZoneMapper.pixel_to_zone
  rw [if_pos ⟨hx0, hxw, hy0, hyh⟩]
  have hfx : ⌊((c : ℚ) + 1 / 2) * m.zone_width / m.zone_width⌋ = c := by
    rw [mul_div_cancel_right₀ _ hzw.ne']
    rw [add_comm, Int.floor_add_int]
    norm_num
  have hfy : ⌊((r : ℚ) + 1 / 2) * m.zone_height / m.zone_height⌋ = r := by
    rw [mul_div_cancel_right₀ _ hzh.ne']
    rw [add_comm, Int.floor_add_int]
    norm_num
  simp only [hfx, hfy, zones_per_row, zones_per_col]
  have hminc : min c (6 - 1) = c := min_eq_left (by omega)
  have hminr : min r (3 - 1) = r := min_eq_left (by omega)
  rw [hminc, hminr]
  omega

/-- Witness for C10 at the default pitch and zone 7, whose center is
(160, 540). -/
theorem zone_center_roundtrip_witness :
    defaultMapper.pixel_to_zone 160 540 = 7 := by
  obtain ⟨p, hp, hz⟩ := zone_center_roundtrip defaultMapper
    (by norm_num [defaultMapper]) (by norm_num [defaultMapper]) 7
    (by norm_num) (by norm_num)
  have hval : defaultMapper.zone_to_pixel_center 7 =
      some ((160 : ℚ), (540 : ℚ)) := by
    norm_num [PitchZoneMapper.zone_to_pixel_center, PitchZoneMapper.zone_map,
      PitchZoneMapper.zone_width, PitchZoneMapper.zone_height, defaultMapper]
  rw [hval] at hp
  have hpe : p = ((160 : ℚ), (540 : ℚ)) := by
    injection hp with h
    exact h.symm
  rw [hpe] at hz
  exact hz

/-- C3: with the default thresholds, `detect_fast_break` returns `true` on a
zone sequence of length `n` with sum `s` exactly when `(n ≥ 3 ∧ s > 9)` or
`(3 < n ≤ 5 ∧ s > 12)`; the rules are independent (each disjunct alone
suffices), and every sequence satisfying neither is rejected. -/
theorem detect_fast_break_default_iff (zs : List ℤ) :
    detect_fast_break_default zs = true ↔
      (3 ≤ zs.length ∧ 9 < calculate_zone_sum zs) ∨
      (3 < zs.length ∧ zs.length ≤ 5 ∧ 12 < calculate_zone_sum zs) := by
  simp only [detect_fast_break_default, detect_fast_break]
  split_ifs with h1 h2 h3 <;> simp_all
  omega

/-! ## Claims C4–C5: track lifecycle -/

/-- Unfolding equation for the per-track update loop. -/
theorem updateTracks_cons (upd : ℕ → Option BBox) (t : TrackEntry)
    (rest : List TrackEntry) :
    updateTracks upd (t :: rest) =
      match upd t.id with
      | some b =>
        (⟨t.id, t.class_id, t.confidence, 0⟩ :: (updateTracks upd rest).1,
         ⟨t.id, b, t.class_id, t.confidence, 0,
          (b.x + b.w / 2, b.y + b.h / 2), none⟩ :: (updateTracks upd rest).2)
      | none =>
        if max_disappeared < t.disappeared + 1 then updateTracks upd rest
        else (⟨t.id, t.class_id, t.confidence, t.disappeared + 1⟩ ::
                (updateTracks upd rest).1,
              (updateTracks upd rest).2) := rfl

/-- The per-track loop never lengthens the track table. -/
theorem updateTracks_length (upd : ℕ → Option BBox) (ts : List TrackEntry) :
    (updateTracks upd ts).1.length ≤ ts.length := by
  induction ts with
  | nil => simp [updateTracks]
  | cons t rest ih =>
    rw [updateTracks_cons]
    rcases hup : upd t.id with _ | b
    · dsimp only
      split
      · exact ih.trans (Nat.le_succ _)
      · simpa using ih
    · simpa using ih

/-- Every id surviving the per-track loop was already present. -/
theorem updateTracks_subset (upd : ℕ → Option BBox) (ts : List TrackEntry) :
    ∀ u ∈ (updateTracks upd ts).1, ∃ t ∈ ts, u.id = t.id := by
  induction ts with
  | nil => simp [updateTracks]
  | cons t rest ih =>
    intro u hu
    rw [updateTracks_cons] at hu
    rcases hup : upd t.id with _ | b <;> rw [hup] at hu
    · dsimp only at hu
      split at hu
      · obtain ⟨t0, ht0, hid⟩ := ih u hu
        exact ⟨t0, List.mem_cons_of_mem _ ht0, hid⟩
      · rcases List.mem_cons.mp hu with h | h
        · exact ⟨t, List.mem_cons_self .., by rw [h]⟩
        · obtain ⟨t0, ht0, hid⟩ := ih u h
          exact ⟨t0, List.mem_cons_of_mem _ ht0, hid⟩
    · rcases List.mem_cons.mp hu with h | h
      · exact ⟨t, List.mem_cons_self .., by rw [h]⟩
      · obtain ⟨t0, ht0, hid⟩ := ih u h
        exact ⟨t0, List.mem_cons_of_mem _ ht0, hid⟩

/-- A nonempty track list skips the bootstrap branch. -/
theorem tracks_isEmpty_false {s : TrackerState} (hne : s.tracks ≠ []) :
    s.tracks.isEmpty = false := by
  cases h : s.tracks with
  | nil => exact absurd h hne
  | cons a l => rfl

/-- C4 (counterexample): the claim says that once `update` has bootstrapped
tracks, no later call creates a new track or increases the live-track
count. In this concrete run the first call bootstraps one track, 30
further all-miss calls expire it (the counter exceeds 30), and the next
call — with no intervening `reset` — re-enters the bootstrap branch and
creates a fresh track, raising the live count from 0 back to 1. -/
theorem update_rebootstrap_counterexample :
    (runMisses 0).tracks.length = 1 ∧
    (runMisses 30).tracks.length = 0 ∧
    ((runMisses 30).update [(sampleDetection, true)] fun _ =>
        some ⟨0, 0, 10, 10⟩).1.tracks.length = 1 := by
  decide

/-- C4 (amended): as long as at least one live track remains at the start
of an `update` call, the call creates no new track — every resulting track
id existed before — and the live-track count does not increase. (When every
track has expired the table is empty again and the next call re-bootstraps
from that frame's detections, exactly as at job start.) -/
theorem update_no_new_tracks (s : TrackerState) (dets : List (Detection × Bool))
    (upd : ℕ → Option BBox) (hne : s.tracks ≠ []) :
    (s.update dets upd).1.tracks.length ≤ s.tracks.length ∧
    ∀ u ∈ (s.update dets upd).1.tracks, ∃ t ∈ s.tracks, u.id = t.id := by
  simp only [TrackerState.update, tracks_isEmpty_false hne, Bool.false_eq_true,
    if_false]
  exact ⟨updateTracks_length upd s.tracks, updateTracks_subset upd s.tracks⟩

/-- Witness for C4's amended theorem on a one-track state. -/
theorem update_no_new_tracks_witness :
    ((⟨[⟨0, 0, 1, 0⟩], 1⟩ : TrackerState).update [] fun _ =>
        none).1.tracks.length ≤ 1 :=
  (update_no_new_tracks ⟨[⟨0, 0, 1, 0⟩], 1⟩ [] (fun _ => none) (by simp)).1

/-- Per-track counter behaviour of the update loop, for a track list with
distinct ids. -/
theorem updateTracks_counter (upd : ℕ → Option BBox) (ts : List TrackEntry)
    (hnd : (ts.map TrackEntry.id).Nodup) (t : TrackEntry) (ht : t ∈ ts) :
    (∀ b, upd t.id = some b →
      (⟨t.id, t.class_id, t.confidence, 0⟩ : TrackEntry) ∈
        (updateTracks upd ts).1) ∧
    (upd t.id = none → t.disappeared + 1 ≤ max_disappeared →
      (⟨t.id, t.class_id, t.confidence, t.disappeared + 1⟩ : TrackEntry) ∈
        (updateTracks upd ts).1) ∧
    (upd t.id = none → max_disappeared < t.disappeared + 1 →
      ∀ u ∈ (updateTracks upd ts).1, u.id ≠ t.id) := by
  induction ts with
  | nil => cases ht
  | cons s rest ih =>
    rw [List.map_cons] at hnd
    have hhead := (List.nodup_cons.mp hnd).1
    have hnd' := (List.nodup_cons.mp hnd).2
    rcases List.mem_cons.mp ht with heq | hmem
    · subst heq
      refine ⟨?_, ?_, ?_⟩
      · intro b hb
        rw [updateTracks_cons, hb]
        exact List.mem_cons_self ..
      · intro hn hle
        rw [updateTracks_cons, hn]
        dsimp only
        rw [if_neg (by omega)]
        exact List.mem_cons_self ..
      · intro hn hgt u hu
        rw [updateTracks_cons, hn] at hu
        dsimp only at hu
        rw [if_pos hgt] at hu
        obtain ⟨t0, ht0, hid⟩ := updateTracks_subset upd rest u hu
        intro hcontra
        exact hhead (hcontra ▸ hid ▸ List.mem_map_of_mem _ ht0)
    · have hii := ih hnd' hmem
      have hsid : s.id ≠ t.id := by
        intro hc
        exact hhead (hc ▸ List.mem_map_of_mem _ hmem)
      refine ⟨?_, ?_, ?_⟩
      · intro b hb
        rw [updateTracks_cons]
        rcases hus : upd s.id with _ | b' <;> dsimp only
        · split
          · exact hii.1 b hb
          · exact List.mem_cons_of_mem _ (hii.1 b hb)
        · exact List.mem_cons_of_mem _ (hii.1 b hb)
      · intro hn hle
        rw [updateTracks_cons]
        rcases hus : upd s.id with _ | b' <;> dsimp only
        · split
          · exact hii.2.1 hn hle
          · exact List.mem_cons_of_mem _ (hii.2.1 hn hle)
        · exact List.mem_cons_of_mem _ (hii.2.1 hn hle)
      · intro hn hgt u hu
        rw [updateTracks_cons] at hu
        rcases hus : upd s.id with _ | b' <;> rw [hus] at hu <;> dsimp only at hu
        · split at hu
          · exact hii.2.2 hn hgt u hu
          · rcases List.mem_cons.mp hu with h | h
            · rw [h]; exact hsid
            · exact hii.2.2 hn hgt u h
        · rcases List.mem_cons.mp hu with h | h
          · rw [h]; exact hsid
          · exact hii.2.2 hn hgt u h

/-- C5: during an `update` call, a live track whose backend update succeeds
comes out with its disappeared counter reset to 0; one whose backend fails
comes out with the counter incremented by exactly 1 when the new value is
at most `max_disappeared` (30) — so a counter reaching exactly 30 is
retained — and is removed (its id no longer occurs) exactly when the new
value exceeds 30, i.e. on reaching 31. -/
theorem update_disappeared_spec (s : TrackerState)
    (dets : List (Detection × Bool)) (upd : ℕ → Option BBox)
    (hnd : (s.tracks.map TrackEntry.id).Nodup)
    (t : TrackEntry) (ht : t ∈ s.tracks) :
    (∀ b, upd t.id = some b →
      (⟨t.id, t.class_id, t.confidence, 0⟩ : TrackEntry) ∈
        (s.update dets upd).1.tracks) ∧
    (upd t.id = none → t.disappeared + 1 ≤ max_disappeared →
      (⟨t.id, t.class_id, t.confidence, t.disappeared + 1⟩ : TrackEntry) ∈
        (s.update dets upd).1.tracks) ∧
    (upd t.id = none → max_disappeared < t.disappeared + 1 →
      ∀ u ∈ (s.update dets upd).1.tracks, u.id ≠ t.id) := by
  simp only [TrackerState.update, tracks_isEmpty_false (List.ne_nil_of_mem ht),
    Bool.false_eq_true, if_false]
  exact updateTracks_counter upd s.tracks hnd t ht

/-- Witness for C5: a missed track with counter 5 survives with counter 6. -/
theorem update_disappeared_spec_witness :
    (⟨0, 0, 1, 6⟩ : TrackEntry) ∈
      ((⟨[⟨0, 0, 1, 5⟩], 1⟩ : TrackerState).update [] fun _ =>
        none).1.tracks := by
  exact (update_disappeared_spec ⟨[⟨0, 0, 1, 5⟩], 1⟩ [] (fun _ => none)
    (by simp) ⟨0, 0, 1, 5⟩ (by simp)).2.1 rfl (by norm_num [max_disappeared])

/-! ## Claim C7: ball-transfer detection -/

/-- Invariant of the closest-player fold from a `some` accumulator: the
result is the running minimum over the accumulator and the remaining
players. -/
theorem closestPlayer_go (c : ℚ × ℚ) (ps : List TrackedObject)
    (q : TrackedObject) (dq : ℚ) (hdq : dq = calculate_distance_sq c q.center) :
    ∃ p dp, ps.foldl (closestStep c) (some (q, dq)) = some (p, dp) ∧
      dp = calculate_distance_sq c p.center ∧ (p = q ∨ p ∈ ps) ∧ dp ≤ dq ∧
      ∀ r ∈ ps, dp ≤ calculate_distance_sq c r.center := by
  induction ps generalizing q dq with
  | nil => exact ⟨q, dq, rfl, hdq, Or.inl rfl, le_refl _, by simp⟩
  | cons a rest ih =>
    rw [List.foldl_cons]
    by_cases hlt : calculate_distance_sq c a.center < dq
    · rw [show closestStep c (some (q, dq)) a =
          some (a, calculate_distance_sq c a.center) by
        unfold closestStep; dsimp only; rw [if_pos hlt]]
      obtain ⟨p, dp, heq, hdp, hmem, hle, hmin⟩ :=
        ih a (calculate_distance_sq c a.center) rfl
      refine ⟨p, dp, heq, hdp, ?_, ?_, ?_⟩
      · rcases hmem with h | h
        · exact Or.inr (h ▸ List.mem_cons_self ..)
        · exact Or.inr (List.mem_cons_of_mem _ h)
      · exact hle.trans hlt.le
      · intro r hr
        rcases List.mem_cons.mp hr with h | h
        · exact h ▸ hle
        · exact hmin r h
    · rw [show closestStep c (some (q, dq)) a = some (q, dq) by
        unfold closestStep; dsimp only; rw [if_neg hlt]]
      obtain ⟨p, dp, heq, hdp, hmem, hle, hmin⟩ := ih q dq hdq
      refine ⟨p, dp, heq, hdp, ?_, hle, ?_⟩
      · rcases hmem with h | h
        · exact Or.inl h
        · exact Or.inr (List.mem_cons_of_mem _ h)
      · intro r hr
        rcases List.mem_cons.mp hr with h | h
        · rw [h]
          exact hle.trans (not_lt.mp hlt)
        · exact hmin r h

/-- On a nonempty player list, the loop returns a player at minimum
(squared) distance together with that distance. -/
theorem closestPlayer_spec (c : ℚ × ℚ) (players : List TrackedObject)
    (hne : players ≠ []) :
    ∃ p dp, closestPlayer c players = some (p, dp) ∧
      dp = calculate_distance_sq c p.center ∧ p ∈ players ∧
      ∀ r ∈ players, dp ≤ calculate_distance_sq c r.center := by
  cases players with
  | nil => exact absurd rfl hne
  | cons a rest =>
    unfold closestPlayer
    rw [List.foldl_cons]
    rw [show closestStep c none a = some (a, calculate_distance_sq c a.center)
      from rfl]
    obtain ⟨p, dp, heq, hdp, hmem, hle, hmin⟩ :=
      closestPlayer_go c rest a (calculate_distance_sq c a.center) rfl
    refine ⟨p, dp, heq, hdp, ?_, ?_⟩
    · rcases hmem with h | h
      · exact h ▸ List.mem_cons_self ..
      · exact List.mem_cons_of_mem _ h
    · intro r hr
      rcases List.mem_cons.mp hr with h | h
      · exact h ▸ hle
      · exact hmin r h

/-- C7: `detect_ball_transfer` emits nothing when there is no ball track or
fewer than two player tracks; otherwise, for the first ball track, there is
a player at minimum (squared) Euclidean distance from the ball and the
result is exactly one event naming that player when the minimum is within
the threshold, and empty otherwise. -/
theorem detect_ball_transfer_spec (tracked : List TrackedObject)
    (threshold : ℚ) :
    ((tracked.filter fun o => o.class_id == 1) = [] ∨
        (tracked.filter fun o => o.class_id == 0).length < 2 →
      detect_ball_transfer tracked threshold = []) ∧
    (∀ ball rest, (tracked.filter fun o => o.class_id == 1) = ball :: rest →
      2 ≤ (tracked.filter fun o => o.class_id == 0).length →
      ∃ p dmin, p ∈ (tracked.filter fun o => o.class_id == 0) ∧
        dmin = calculate_distance_sq ball.center p.center ∧
        (∀ q ∈ tracked.filter fun o => o.class_id == 0,
          dmin ≤ calculate_distance_sq ball.center q.center) ∧
        detect_ball_transfer tracked threshold =
          (if dmin ≤ threshold ^ 2 then
            [⟨ball.frame_id, ball.id, p.id, dmin, ball.center, p.center⟩]
          else [])) := by
  constructor
  · intro h
    unfold detect_ball_transfer
    rcases h with h | h
    · rw [h]
    · cases hb : tracked.filter fun o => o.class_id == 1 with
      | nil => rfl
      | cons ball rest =>
        dsimp only
        rw [if_pos h]
  · intro ball rest hb hp
    have hpne : (tracked.filter fun o => o.class_id == 0) ≠ [] := by
      intro hc
      rw [hc] at hp
      simp at hp
    obtain ⟨p, dp, heq, hdp, hmem, hmin⟩ := closestPlayer_spec ball.center _ hpne
    refine ⟨p, dp, hmem, hdp, hmin, ?_⟩
    unfold detect_ball_transfer
    rw [hb]
    dsimp only
    rw [if_neg (by omega), heq]

/-- Witness for C7: with no tracked objects at all there is no ball track,
and no event is emitted. -/
theorem detect_ball_transfer_spec_witness :
    detect_ball_transfer [] 50 = [] :=
  (detect_ball_transfer_spec [] 50).1 (Or.inl rfl)

/-! ## Claims C8–C9: velocity and ball prediction -/

/-- C8 (counterexample): the claim says every track whose id is absent from
the previous frame ends up with velocity `None` after `calculate_velocity`.
Here the single current track (id 0) is absent from the empty previous
frame but enters with velocity `(1, 1)`, and `calculate_velocity` leaves it
untouched, so its velocity is not `None`. -/
theorem calculate_velocity_unmatched_counterexample :
    ¬ (calculate_velocity [⟨0, ⟨0, 0, 1, 1⟩, 0, 1, 0, (0, 0), some (1, 1)⟩]
        []).map TrackedObject.velocity = [none] := by
  decide

/-- C8 (amended): after `calculate_velocity`, every track matched by id in
the previous frame has velocity equal to the exact component-wise
difference of centres (current minus the last previous-frame object with
that id), and every track whose id is absent from the previous frame is
returned completely unchanged — in particular its velocity stays `None`
whenever it entered as `None`, as for the snapshots `update` produces, but
it is not overwritten. -/
theorem calculate_velocity_spec (tracked previous : List TrackedObject) :
    (∀ i, (prevObjectsMap previous i = none ↔ ∀ p ∈ previous, p.id ≠ i) ∧
      ∀ prev, prevObjectsMap previous i = some prev →
        prev.id = i ∧ prev ∈ previous) ∧
    List.Forall₂ (fun obj res =>
      (∀ prev, prevObjectsMap previous obj.id = some prev →
        res = { obj with
                velocity := some (obj.center.1 - prev.center.1,
                                  obj.center.2 - prev.center.2) }) ∧
      (prevObjectsMap previous obj.id = none → res = obj))
      tracked (calculate_velocity tracked previous) := by
  constructor
  · intro i
    constructor
    · unfold prevObjectsMap
      rw [List.find?_eq_none]
      constructor
      · intro h p hp
        have := h p (List.mem_reverse.mpr hp)
        simpa using this
      · intro h p hp
        have := h p (List.mem_reverse.mp hp)
        simpa using this
    · intro prev hprev
      unfold prevObjectsMap at hprev
      have h1 := List.find?_some hprev
      have h2 := List.mem_of_find?_eq_some hprev
      exact ⟨by simpa using h1, List.mem_reverse.mp h2⟩
  · unfold calculate_velocity
    rw [List.forall₂_map_right_iff]
    rw [List.forall₂_same]
    intro x hx
    constructor
    · intro prev hprev
      rw [hprev]
    · intro hnone
      rw [hnone]

/-- C9: `predict_ball_position` returns `none` with fewer than 3 history
samples; with at least 3, writing the history as `pre ++ [a, b, c]`, it
returns the last position `c` plus `frames_ahead` times the average of the
two velocities between the three most recent samples. -/
theorem predict_ball_position_spec (h : List BallHistoryEntry) (k : ℕ) :
    (h.length < 3 → predict_ball_position h k = none) ∧
    (∀ pre a b c, h = pre ++ [a, b, c] →
      predict_ball_position h k =
        some (c.position.1 +
                ((b.position.1 - a.position.1) +
                 (c.position.1 - b.position.1)) / 2 * (k : ℚ),
              c.position.2 +
                ((b.position.2 - a.position.2) +
                 (c.position.2 - b.position.2)) / 2 * (k : ℚ))) := by
  constructor
  · intro hlt
    unfold predict_ball_position
    rw [if_pos hlt]
  · intro pre a b c hh
    subst hh
    unfold predict_ball_position
    have hlen : (pre ++ [a, b, c]).length = pre.length + 3 := by simp
    rw [if_neg (by omega)]
    have hdrop : (pre ++ [a, b, c]).drop ((pre ++ [a, b, c]).length - 3) =
        [a, b, c] := by
      rw [hlen, Nat.add_sub_cancel]
      exact List.drop_left pre [a, b, c]
    rw [hdrop]
    have hlast : (pre ++ [a, b, c]).getLast? = some c := by
      rw [List.getLast?_append_of_ne_nil pre (by simp)]
      rfl
    rw [hlast]
    dsimp only [List.map_cons, List.map_nil, consecVelocities]
    norm_num

/-- Witness for C9 on the three-sample history
(0,0), (1,2), (3,3) with `frames_ahead = 5`. -/
theorem predict_ball_position_spec_witness :
    predict_ball_position
      [⟨0, (0, 0), ⟨0, 0, 0, 0⟩⟩, ⟨1, (1, 2), ⟨0, 0, 0, 0⟩⟩,
       ⟨2, (3, 3), ⟨0, 0, 0, 0⟩⟩] 5 =
      some (3 + ((1 - 0) + (3 - 1)) / 2 * (5 : ℚ),
            3 + ((2 - 0) + (3 - 2)) / 2 * (5 : ℚ)) :=
  (predict_ball_position_spec _ 5).2 [] ⟨0, (0, 0), ⟨0, 0, 0, 0⟩⟩
    ⟨1, (1, 2), ⟨0, 0, 0, 0⟩⟩ ⟨2, (3, 3), ⟨0, 0, 0, 0⟩⟩ rfl

end FootballCoach
